import Mathlib

/-!
Verification development for the cubed-sphere domain-decomposition engine
(`projects/2021/groupH_cubedsphere_decomposition/partitioner.py`).

The Python source is embedded shallowly:

* Python integers are `Int`; `//` is `Int.fdiv` and `%` is `Int.fmod`,
  which match Python's floor division and sign-of-divisor remainder for
  all operands.
* Fallible code returns `Except PyErr`.
* Layouts are pairs of naturals `(layout.1, layout.2)` mirroring the
  Python tuple `(layout[0], layout[1])`.
* The support modules `constants`, `utils`, `boundary` and `quantity`
  are not part of the sources; the few values taken from them are
  modelled from the spec and marked as such below.
-/

set_option autoImplicit false
set_option maxRecDepth 100000

namespace Partitioner

/-- Modelled from the spec: the `constants` module of the repository (not in
the sources) defines eight integer compass-direction tags `NORTH`, `SOUTH`,
`WEST`, `EAST`, `NORTHWEST`, `NORTHEAST`, `SOUTHWEST`, `SOUTHEAST`; only
their identity matters, so they are modelled as an inductive type. -/
inductive BType where
  | west
  | east
  | north
  | south
  | northwest
  | northeast
  | southwest
  | southeast
  deriving DecidableEq, Repr

/-- The Python exception classes raised by the code under study. -/
inductive PyErr where
  | valueError
  | zeroDivisionError
  | attributeError
  | notImplementedError
  | indexError
  deriving DecidableEq, Repr

/-- Modelled from the spec: `boundary.SimpleBoundary` of the repository's
`boundary` module (not in the sources) is the BoundaryDescriptor record
{direction, source rank, target rank, rotation count}; the field names are
those used by every constructor call in `partitioner.py`. -/
structure SimpleBoundary where
  boundary_type : BType
  from_rank : Int
  to_rank : Int
  n_clockwise_rotations : Int
  deriving DecidableEq, Repr

instance : Inhabited SimpleBoundary := ⟨⟨BType.west, 0, 0, 0⟩⟩

/-- Decidable equality for `Except` results, used to evaluate the model on
concrete inputs. -/
def exceptDecEq {ε α : Type} [DecidableEq ε] [DecidableEq α] :
    DecidableEq (Except ε α)
  | .error e, .error f =>
    match decEq e f with
    | isTrue h => isTrue (h ▸ rfl)
    | isFalse h => isFalse (fun c => h (by injection c))
  | .error _, .ok _ => isFalse (fun c => Except.noConfusion c)
  | .ok _, .error _ => isFalse (fun c => Except.noConfusion c)
  | .ok a, .ok b =>
    match decEq a b with
    | isTrue h => isTrue (h ▸ rfl)
    | isFalse h => isFalse (fun c => h (by injection c))

instance {ε α : Type} [DecidableEq ε] [DecidableEq α] : DecidableEq (Except ε α) :=
  exceptDecEq

/-- `is_even(value)`: `value % 2 == 0` (Python `%` is `Int.fmod`). -/
def is_even (value : Int) : Bool :=
  value.fmod 2 == 0

/-- `get_tile_index(rank, total_ranks)`: raises `ValueError` when
`total_ranks % 6 != 0`, otherwise computes `rank // (total_ranks // 6)`;
Python raises `ZeroDivisionError` when `total_ranks // 6 == 0`. -/
def get_tile_index (rank total_ranks : Int) : Except PyErr Int :=
  if total_ranks.fmod 6 ≠ 0 then
    .error .valueError
  else if total_ranks.fdiv 6 = 0 then
    .error .zeroDivisionError
  else
    .ok (rank.fdiv (total_ranks.fdiv 6))

/-- The 4-tuple `(j, i, k, l)` returned by `subtile_index`. -/
structure SubtileIndex where
  j : Int
  i : Int
  k : Int
  l : Int
  deriving DecidableEq, Repr

/-- `subtile_index(rank, ranks_per_tile, layout)` from the source:
`within = rank % ranks_per_tile`; `j = within // layout[1]`,
`i = within % layout[0]`, `k = within // layout[0]`, `l = within % layout[1]`. -/
def subtile_index (rank ranks_per_tile : Int) (layout : Nat × Nat) : SubtileIndex :=
  let within := rank.fmod ranks_per_tile
  { j := within.fdiv (layout.2 : Int)
    i := within.fmod (layout.1 : Int)
    k := within.fdiv (layout.1 : Int)
    l := within.fmod (layout.2 : Int) }

/-- `on_tile_left(subtile_index)`: `subtile_index[1] == 0`. -/
def on_tile_left (si : SubtileIndex) : Bool :=
  si.i == 0

/-- `on_tile_right(subtile_index, layout)`: `subtile_index[1] == layout[0] - 1`. -/
def on_tile_right (si : SubtileIndex) (layout : Nat × Nat) : Bool :=
  si.i == (layout.1 : Int) - 1

/-- `on_tile_top(subtile_index, layout)`: `subtile_index[2] == layout[1] - 1`. -/
def on_tile_top (si : SubtileIndex) (layout : Nat × Nat) : Bool :=
  si.k == (layout.2 : Int) - 1

/-- `on_tile_bottom(subtile_index)`: `subtile_index[2] == 0`. -/
def on_tile_bottom (si : SubtileIndex) : Bool :=
  si.k == 0

/-- `TilePartitioner.total_ranks = layout[0] * layout[1]`. -/
def tile_total_ranks (layout : Nat × Nat) : Int :=
  (layout.1 : Int) * (layout.2 : Int)

/-- `TilePartitioner.subtile_index(rank)`. -/
def tileSubtileIndex (layout : Nat × Nat) (rank : Int) : SubtileIndex :=
  subtile_index rank (tile_total_ranks layout) layout

/-- `TilePartitioner.on_tile_left(rank)`. -/
def tileOnLeft (layout : Nat × Nat) (rank : Int) : Bool :=
  on_tile_left (tileSubtileIndex layout rank)

/-- `TilePartitioner.on_tile_right(rank)`. -/
def tileOnRight (layout : Nat × Nat) (rank : Int) : Bool :=
  on_tile_right (tileSubtileIndex layout rank) layout

/-- `TilePartitioner.on_tile_top(rank)`. -/
def tileOnTop (layout : Nat × Nat) (rank : Int) : Bool :=
  on_tile_top (tileSubtileIndex layout rank) layout

/-- `TilePartitioner.on_tile_bottom(rank)`. -/
def tileOnBottom (layout : Nat × Nat) (rank : Int) : Bool :=
  on_tile_bottom (tileSubtileIndex layout rank)

/-- `TilePartitioner._left_edge(rank)`: wraps to `rank + layout[0] - 1` on the
left edge, otherwise `rank - 1`; rotation count `0`. -/
def tile_left_edge (layout : Nat × Nat) (rank : Int) : SimpleBoundary :=
  let to_rank := if tileOnLeft layout rank then rank + (layout.1 : Int) - 1 else rank - 1
  { boundary_type := .west, from_rank := rank, to_rank := to_rank
    n_clockwise_rotations := 0 }

/-- `TilePartitioner._right_edge(rank)`: wraps to `rank - layout[0] + 1` on the
right edge, otherwise `rank + 1`; rotation count `0`. -/
def tile_right_edge (layout : Nat × Nat) (rank : Int) : SimpleBoundary :=
  let to_rank := if tileOnRight layout rank then rank - (layout.1 : Int) + 1 else rank + 1
  { boundary_type := .east, from_rank := rank, to_rank := to_rank
    n_clockwise_rotations := 0 }

/-- `TilePartitioner._top_edge(rank)`: wraps to
`rank - (layout[1] - 1) * layout[0]` on the top edge, otherwise
`rank + layout[1]`; rotation count `0`. -/
def tile_top_edge (layout : Nat × Nat) (rank : Int) : SimpleBoundary :=
  let to_rank :=
    if tileOnTop layout rank then rank - ((layout.2 : Int) - 1) * (layout.1 : Int)
    else rank + (layout.2 : Int)
  { boundary_type := .north, from_rank := rank, to_rank := to_rank
    n_clockwise_rotations := 0 }

/-- `TilePartitioner._bottom_edge(rank)`: wraps to
`rank + (layout[1] - 1) * layout[0]` on the bottom edge, otherwise
`rank - layout[1]`; rotation count `0`. -/
def tile_bottom_edge (layout : Nat × Nat) (rank : Int) : SimpleBoundary :=
  let to_rank :=
    if tileOnBottom layout rank then rank + ((layout.2 : Int) - 1) * (layout.1 : Int)
    else rank - (layout.2 : Int)
  { boundary_type := .south, from_rank := rank, to_rank := to_rank
    n_clockwise_rotations := 0 }

/-- Module-level `_get_corner(boundary_type, rank, edge_func_1, edge_func_2)`:
composes two tile-level edge lookups and sums their rotation counts. -/
def tile_get_corner (boundary_type : BType) (rank : Int)
    (edge_func_1 edge_func_2 : Int → SimpleBoundary) : SimpleBoundary :=
  let edge_1 := edge_func_1 rank
  let edge_2 := edge_func_2 edge_1.to_rank
  { boundary_type := boundary_type
    from_rank := rank
    to_rank := edge_2.to_rank
    n_clockwise_rotations := edge_1.n_clockwise_rotations + edge_2.n_clockwise_rotations }

/-- `TilePartitioner._top_left_corner(rank)`. -/
def tile_top_left_corner (layout : Nat × Nat) (rank : Int) : SimpleBoundary :=
  tile_get_corner .northwest rank (tile_left_edge layout) (tile_top_edge layout)

/-- `TilePartitioner._top_right_corner(rank)`. -/
def tile_top_right_corner (layout : Nat × Nat) (rank : Int) : SimpleBoundary :=
  tile_get_corner .northeast rank (tile_right_edge layout) (tile_top_edge layout)

/-- `TilePartitioner._bottom_left_corner(rank)`. -/
def tile_bottom_left_corner (layout : Nat × Nat) (rank : Int) : SimpleBoundary :=
  tile_get_corner .southwest rank (tile_left_edge layout) (tile_bottom_edge layout)

/-- `TilePartitioner._bottom_right_corner(rank)`. -/
def tile_bottom_right_corner (layout : Nat × Nat) (rank : Int) : SimpleBoundary :=
  tile_get_corner .southeast rank (tile_right_edge layout) (tile_bottom_edge layout)

/-- The dispatch table of `TilePartitioner._cached_boundary`: every branch
produces a `SimpleBoundary` object (the tile-level edge and corner helpers
never return `None`). -/
def tileBoundaryCompute (layout : Nat × Nat) (boundary_type : BType) (rank : Int) :
    SimpleBoundary :=
  match boundary_type with
  | .west => tile_left_edge layout rank
  | .east => tile_right_edge layout rank
  | .north => tile_top_edge layout rank
  | .south => tile_bottom_edge layout rank
  | .northwest => tile_top_left_corner layout rank
  | .northeast => tile_top_right_corner layout rank
  | .southwest => tile_bottom_left_corner layout rank
  | .southeast => tile_bottom_right_corner layout rank

/-- `TilePartitioner._cached_boundary(boundary_type, rank)`: the cached value,
typed `Optional[SimpleBoundary]` in the source but never `None` at tile level. -/
def tileCachedBoundary (layout : Nat × Nat) (boundary_type : BType) (rank : Int) :
    Option SimpleBoundary :=
  some (tileBoundaryCompute layout boundary_type rank)

/-- Python list slicing `l[s:e]` with `int` bounds: negative indices count
from the end, and both bounds are clamped to `[0, len(l)]`. -/
def pySlice {α : Type} (l : List α) (s e : Int) : List α :=
  let n : Int := l.length
  let s' := if s < 0 then max 0 (n + s) else min s n
  let e' := if e < 0 then max 0 (n + e) else min e n
  (l.drop s'.toNat).take (e' - s').toNat

/-- Python list indexing `l[i]` for the in-range accesses performed by the
source (out-of-range access raises `IndexError` in Python; every index the
code builds is in range for the layouts the theorems below quantify over). -/
def pyGet (l : List Int) (i : Int) : Int :=
  if i < 0 then l.getD (l.length + i).toNat 0 else l.getD i.toNat 0

/-- `np.cumsum` on a list of Python ints. -/
def cumsum (l : List Int) : List Int :=
  (l.scanl (fun a b => a + b) 0).drop 1

/-- `CubedSpherePartitioner.total_ranks = 6 * tile.total_ranks`. -/
def cube_total_ranks (layout : Nat × Nat) : Int :=
  6 * tile_total_ranks layout

/-- `CubedSpherePartitioner.tile_index(rank)` is
`get_tile_index(rank, 6 * tile.total_ranks)`, whose non-raising value is
`rank // tile.total_ranks` (it raises only in the degenerate case
`tile.total_ranks == 0`, excluded by the positivity hypotheses below). -/
def cube_tile_index (layout : Nat × Nat) (rank : Int) : Int :=
  rank.fdiv (tile_total_ranks layout)

/-- `CubedSpherePartitioner.tile_root_rank(rank) =
tile.total_ranks * (rank // tile.total_ranks)`. -/
def tile_root_rank (layout : Nat × Nat) (rank : Int) : Int :=
  tile_total_ranks layout * rank.fdiv (tile_total_ranks layout)

/-- `CubedSpherePartitioner.lr_boundary_seq(rank)`: the pair
`(Nboundary, boundary_seq)` for a left/right tile edge. -/
def lr_boundary_seq (layout : Nat × Nat) (rank : Int) : Int × List Int :=
  let l0 := layout.1
  let l1 := layout.2
  let T := tile_total_ranks layout
  let rank_position_y := (rank.fmod T).fdiv (l0 : Int)
  if l0 % l1 = 0 ∨ l1 % l0 = 0 then
    let div : Int := if l0 ≥ l1 then ((l0 / l1 : Nat) : Int) else 1
    let boundary_seq := List.replicate l1 div
    (pyGet boundary_seq rank_position_y, boundary_seq)
  else
    let nfirst : Int := ((l0 / l1 : Nat) : Int) + 1
    let rest := (List.range (l1 - 1)).map (fun y0 =>
      let y : Int := (y0 : Int) + 1
      let num1 := T - y * (l0 : Int)
      let num2before := num1.fdiv (l1 : Int) + 1
      let num2after := (num1 - (l0 : Int)).fdiv (l1 : Int) + 1
      num2before - num2after + 1)
    let boundary_seq := nfirst :: rest
    (pyGet boundary_seq rank_position_y, boundary_seq)

/-- `CubedSpherePartitioner.ul_boundary_seq(rank)`: the pair
`(Nboundary, boundary_seq)` for an upper/lower tile edge. -/
def ul_boundary_seq (layout : Nat × Nat) (rank : Int) : Int × List Int :=
  let l0 := layout.1
  let l1 := layout.2
  let T := tile_total_ranks layout
  let rank_position_x := (rank.fmod T).fdiv (l0 : Int)
  if l0 % l1 = 0 ∨ l1 % l0 = 0 then
    let div : Int := if l1 ≥ l0 then ((l1 / l0 : Nat) : Int) else 1
    let boundary_seq := List.replicate l0 div
    (pyGet boundary_seq rank_position_x, boundary_seq)
  else
    let nfirst : Int := ((l1 / l0 : Nat) : Int) + 1
    let rest := (List.range (l0 - 1)).map (fun x0 =>
      let x : Int := (x0 : Int) + 1
      let num1 := T - x * (l1 : Int)
      let num2before := num1.fdiv (l0 : Int) + 1
      let num2after := (num1 - (l1 : Int)).fdiv (l0 : Int) + 1
      num2before - num2after + 1)
    let boundary_seq := nfirst :: rest
    (pyGet boundary_seq rank_position_x, boundary_seq)

/-- `CubedSpherePartitioner.lr_to_ranks(rank, to_root_rank)`: the sequence of
target ranks for a left/right cross-face edge (fan-out procedure).
`np.fliplr([p, p, p])[1]` reverses the list. -/
def lr_to_ranks (layout : Nat × Nat) (rank to_root_rank : Int) : List Int :=
  let l0 := layout.1
  let l1 := layout.2
  let T := tile_total_ranks layout
  let boundary_seq := (lr_boundary_seq layout rank).2
  let dividable := l0 % l1 = 0 ∨ l1 % l0 = 0
  let cumsum_boundary_seq :=
    if dividable then
      let div : Int := ((l1 / l0 : Nat) : Int)
      if div ≥ 1 then (cumsum boundary_seq).map (·.fdiv div) else cumsum boundary_seq
    else
      cumsum (boundary_seq.map (· - 1))
  let rank_position_y := (rank.fmod T).fdiv (l0 : Int)
  let to_ranks_pot := (List.range l0).map (fun x =>
    if tileOnLeft layout rank then to_root_rank + (l0 : Int) * ((l1 : Int) - 1) + (x : Int)
    else to_root_rank + (x : Int))
  let to_ranks_pot := to_ranks_pot.reverse
  if rank_position_y = 0 then
    if dividable then
      if l0 / l1 ≥ 1 then
        pySlice to_ranks_pot 0 (pyGet cumsum_boundary_seq 0)
      else
        let div : Int := ((l1 / l0 : Nat) : Int)
        pySlice to_ranks_pot 0 ((pyGet cumsum_boundary_seq 0).fdiv div)
    else
      pySlice to_ranks_pot 0 (pyGet cumsum_boundary_seq 0 + 1)
  else
    if dividable then
      if l0 ≥ l1 then
        pySlice to_ranks_pot (pyGet cumsum_boundary_seq (rank_position_y - 1))
          (pyGet cumsum_boundary_seq rank_position_y)
      else
        let div : Int := ((l1 / l0 : Nat) : Int)
        let start := rank_position_y.fdiv div
        pySlice to_ranks_pot start (start + 1)
    else
      pySlice to_ranks_pot (pyGet cumsum_boundary_seq (rank_position_y - 1))
        (pyGet cumsum_boundary_seq rank_position_y + 1)

/-- `CubedSpherePartitioner.ul_to_ranks(rank, to_root_rank)`: the sequence of
target ranks for an upper/lower cross-face edge (fan-out procedure). -/
def ul_to_ranks (layout : Nat × Nat) (rank to_root_rank : Int) : List Int :=
  let l0 := layout.1
  let l1 := layout.2
  let T := tile_total_ranks layout
  let boundary_seq := (ul_boundary_seq layout rank).2
  let dividable := l0 % l1 = 0 ∨ l1 % l0 = 0
  let cumsum_boundary_seq :=
    if dividable then
      let div : Int := ((l1 / l0 : Nat) : Int)
      if div ≥ 1 then (cumsum boundary_seq).map (·.fdiv div) else cumsum boundary_seq
    else
      cumsum (boundary_seq.map (· - 1))
  let rank_position_x := (rank.fmod T).fmod (l0 : Int)
  let to_ranks_pot := (List.range l1).map (fun y =>
    if tileOnTop layout rank then to_root_rank + (l0 : Int) * (y : Int)
    else to_root_rank + (l0 : Int) * (y : Int) + (l0 : Int) - 1)
  let to_ranks_pot := to_ranks_pot.reverse
  if rank_position_x = 0 then
    if dividable then
      if l1 / l0 > 1 then
        let div : Int := ((l1 / l0 : Nat) : Int)
        pySlice to_ranks_pot 0 div
      else
        pySlice to_ranks_pot 0 1
    else
      pySlice to_ranks_pot 0 (pyGet cumsum_boundary_seq 0 + 1)
  else
    if dividable then
      if l1 / l0 > 1 then
        let div : Int := ((l1 / l0 : Nat) : Int)
        pySlice to_ranks_pot (rank_position_x * div) (rank_position_x * div + div)
      else
        let div : Int := ((l0 / l1 : Nat) : Int)
        let start := rank_position_x.fdiv div
        pySlice to_ranks_pot start (start + 1)
    else
      pySlice to_ranks_pot (pyGet cumsum_boundary_seq (rank_position_x - 1))
        (pyGet cumsum_boundary_seq rank_position_x + 1)

/-- `CubedSpherePartitioner._left_edge(rank)`: returns the list
`boundary_list`. -/
def cube_left_edge (layout : Nat × Nat) (rank : Int) : List SimpleBoundary :=
  let T := tile_total_ranks layout
  let total := cube_total_ranks layout
  if tileOnLeft layout rank then
    if is_even (cube_tile_index layout rank) then
      let to_root_rank := tile_root_rank layout ((rank - 2 * T).fmod total)
      (lr_to_ranks layout rank to_root_rank).map (fun v =>
        { boundary_type := .west, from_rank := rank, to_rank := v.fmod total
          n_clockwise_rotations := 1 })
    else
      let b := tileBoundaryCompute layout .west rank
      let t := b.to_rank - T
      [{ b with to_rank := if t > total then t.fmod total else t }]
  else
    [tileBoundaryCompute layout .west rank]

/-- `CubedSpherePartitioner._right_edge(rank)`: returns the list
`boundary_list`. -/
def cube_right_edge (layout : Nat × Nat) (rank : Int) : List SimpleBoundary :=
  let T := tile_total_ranks layout
  let total := cube_total_ranks layout
  if tileOnRight layout rank then
    if ¬ is_even (cube_tile_index layout rank) then
      let to_root_rank := tile_root_rank layout rank + 2 * T
      (lr_to_ranks layout rank to_root_rank).map (fun v =>
        { boundary_type := .east, from_rank := rank, to_rank := v.fmod total
          n_clockwise_rotations := 1 })
    else
      let b := tileBoundaryCompute layout .east rank
      let t := b.to_rank + T
      [{ b with to_rank := if t > total then t.fmod total else t }]
  else
    [tileBoundaryCompute layout .east rank]

/-- `CubedSpherePartitioner._top_edge(rank)`: returns the list
`boundary_list`. -/
def cube_top_edge (layout : Nat × Nat) (rank : Int) : List SimpleBoundary :=
  let T := tile_total_ranks layout
  let total := cube_total_ranks layout
  if tileOnTop layout rank then
    if is_even (cube_tile_index layout rank) then
      let to_root_rank := (cube_tile_index layout rank + 2) * T
      (ul_to_ranks layout rank to_root_rank).map (fun v =>
        { boundary_type := .north, from_rank := rank, to_rank := v.fmod total
          n_clockwise_rotations := 3 })
    else
      let b := tileBoundaryCompute layout .north rank
      let t := b.to_rank + T
      [{ b with to_rank := if t > total then t.fmod total else t }]
  else
    [tileBoundaryCompute layout .north rank]

/-- `CubedSpherePartitioner._bottom_edge(rank)`: returns the list
`boundary_list`. -/
def cube_bottom_edge (layout : Nat × Nat) (rank : Int) : List SimpleBoundary :=
  let T := tile_total_ranks layout
  let total := cube_total_ranks layout
  if tileOnBottom layout rank ∧ ¬ is_even (cube_tile_index layout rank) then
    let to_root_rank := (tile_root_rank layout rank + 4 * T).fmod total
    (ul_to_ranks layout rank to_root_rank).map (fun v =>
      { boundary_type := .south, from_rank := rank, to_rank := v.fmod total
        n_clockwise_rotations := 3 })
  else
    let b := tileBoundaryCompute layout .south rank
    if tileOnBottom layout rank then
      let t := b.to_rank - T
      [{ b with to_rank := if t < 0 then t.fmod total else t }]
    else
      [b]

/-- Python attribute access `boundary_list.to_rank` on the `list` object the
cube edge functions return: a `list` has no `to_rank` attribute, so this
raises `AttributeError`. -/
def list_attr_to_rank (_boundary_list : List SimpleBoundary) : Except PyErr Int :=
  .error .attributeError

/-- Python attribute access `boundary_list.n_clockwise_rotations` on a `list`
object: raises `AttributeError`. -/
def list_attr_rotations (_boundary_list : List SimpleBoundary) : Except PyErr Int :=
  .error .attributeError

/-- `CubedSpherePartitioner._get_corner(boundary_type, rank, edge_func_1,
edge_func_2)`: the cube-level edge functions return `list`s, and this method
reads `edge_1.to_rank` from such a list, so the first attribute access raises
`AttributeError` before a descriptor can be built. -/
def cube_get_corner (boundary_type : BType) (rank : Int)
    (edge_func_1 edge_func_2 : Int → List SimpleBoundary) :
    Except PyErr SimpleBoundary := do
  let edge_1 := edge_func_1 rank
  let t1 ← list_attr_to_rank edge_1
  let edge_2 := edge_func_2 t1
  let r1 ← list_attr_rotations edge_1
  let r2 ← list_attr_rotations edge_2
  let t2 ← list_attr_to_rank edge_2
  pure { boundary_type := boundary_type, from_rank := rank, to_rank := t2
         n_clockwise_rotations := r1 + r2 }

/-- `CubedSpherePartitioner._top_left_corner(rank)`. -/
def cube_top_left_corner (layout : Nat × Nat) (rank : Int) :
    Except PyErr (Option SimpleBoundary) :=
  if tileOnTop layout rank ∧ tileOnLeft layout rank then
    .ok none
  else
    let second_edge :=
      if is_even (cube_tile_index layout rank) ∧ tileOnLeft layout rank then
        cube_left_edge layout
      else
        cube_top_edge layout
    (cube_get_corner .northwest rank (cube_left_edge layout) second_edge).map some

/-- `CubedSpherePartitioner._top_right_corner(rank)`. -/
def cube_top_right_corner (layout : Nat × Nat) (rank : Int) :
    Except PyErr (Option SimpleBoundary) :=
  if tileOnTop layout rank ∧ tileOnRight layout rank then
    .ok none
  else
    let second_edge :=
      if is_even (cube_tile_index layout rank) ∧ tileOnTop layout rank then
        cube_bottom_edge layout
      else
        cube_right_edge layout
    (cube_get_corner .northeast rank (cube_top_edge layout) second_edge).map some

/-- `CubedSpherePartitioner._bottom_left_corner(rank)`. -/
def cube_bottom_left_corner (layout : Nat × Nat) (rank : Int) :
    Except PyErr (Option SimpleBoundary) :=
  if tileOnBottom layout rank ∧ tileOnLeft layout rank then
    .ok none
  else
    let second_edge :=
      if ¬ is_even (cube_tile_index layout rank) ∧ tileOnBottom layout rank then
        cube_top_edge layout
      else
        cube_left_edge layout
    (cube_get_corner .southwest rank (cube_bottom_edge layout) second_edge).map some

/-- `CubedSpherePartitioner._bottom_right_corner(rank)`. -/
def cube_bottom_right_corner (layout : Nat × Nat) (rank : Int) :
    Except PyErr (Option SimpleBoundary) :=
  if tileOnBottom layout rank ∧ tileOnRight layout rank then
    .ok none
  else
    let second_edge :=
      if ¬ is_even (cube_tile_index layout rank) ∧ tileOnBottom layout rank then
        cube_bottom_edge layout
      else
        cube_right_edge layout
    (cube_get_corner .southeast rank (cube_bottom_edge layout) second_edge).map some

/-- What the dispatch dictionary of `CubedSpherePartitioner._cached_boundary`
evaluates to: cube edge methods return a `list` of descriptors, corner methods
return `None` or raise. -/
inductive CubeDispatchResult where
  | listResult (boundary_list : List SimpleBoundary)
  | noneResult
  | singleResult (b : SimpleBoundary)
  deriving DecidableEq, Repr

/-- The dictionary dispatch inside `CubedSpherePartitioner._cached_boundary`. -/
def cube_dispatch (layout : Nat × Nat) (boundary_type : BType) (rank : Int) :
    Except PyErr CubeDispatchResult :=
  match boundary_type with
  | .west => .ok (.listResult (cube_left_edge layout rank))
  | .east => .ok (.listResult (cube_right_edge layout rank))
  | .north => .ok (.listResult (cube_top_edge layout rank))
  | .south => .ok (.listResult (cube_bottom_edge layout rank))
  | .northwest => (cube_top_left_corner layout rank).map
      (fun o => match o with | none => .noneResult | some b => .singleResult b)
  | .northeast => (cube_top_right_corner layout rank).map
      (fun o => match o with | none => .noneResult | some b => .singleResult b)
  | .southwest => (cube_bottom_left_corner layout rank).map
      (fun o => match o with | none => .noneResult | some b => .singleResult b)
  | .southeast => (cube_bottom_right_corner layout rank).map
      (fun o => match o with | none => .noneResult | some b => .singleResult b)

/-- The epilogue `if boundary is not None: boundary.to_rank = boundary.to_rank
% self.total_ranks` of `CubedSpherePartitioner._cached_boundary`: skipped for
`None`, reduces the target of a single descriptor, and raises
`AttributeError` for the `list` objects the edge methods return. -/
def cube_apply_modulo (total : Int) :
    CubeDispatchResult → Except PyErr (Option SimpleBoundary)
  | .noneResult => .ok none
  | .singleResult b => .ok (some { b with to_rank := b.to_rank.fmod total })
  | .listResult _ => .error .attributeError

/-- `CubedSpherePartitioner._cached_boundary(boundary_type, rank)`; the public
`boundary` method returns `copy.copy` of this value, which is value-equal. -/
def cube_cached_boundary (layout : Nat × Nat) (boundary_type : BType) (rank : Int) :
    Except PyErr (Option SimpleBoundary) := do
  let b ← cube_dispatch layout boundary_type rank
  cube_apply_modulo (cube_total_ranks layout) b

/-- `CubedSpherePartitioner._ensure_square_layout()`. -/
def ensure_square_layout (layout : Nat × Nat) : Except PyErr Unit :=
  if layout.1 = layout.2 then .ok () else .error .notImplementedError

/-- `rotate_subtile_rank(rank, layout, n_clockwise_rotations)`. The
`n_clockwise_rotations == 1` branch builds
`rank_array = np.arange(l0*l1).reshape(layout)` (so `rank_array[j][i] =
j*l1 + i`), rotates it counter-clockwise with `np.rot90` (so
`rot90(rank_array)[a][b] = rank_array[b][l1-1-a]`), and looks up
`rank_array[np.where(rotated == rank)][0]`.  The match position is
`(a, b) = (l1 - 1 - rank % l1, rank // l1)` when `0 <= rank < l0*l1` and
does not exist otherwise (empty `where`, so `[0]` raises `IndexError`);
the final fancy index into `rank_array` requires `a < l0` and `b < l1`,
raising `IndexError` otherwise. -/
def rotate_subtile_rank (rank : Int) (layout : Nat × Nat)
    (n_clockwise_rotations : Int) : Except PyErr Int :=
  if n_clockwise_rotations = 0 then
    .ok rank
  else if n_clockwise_rotations = 1 then
    let l0 := (layout.1 : Int)
    let l1 := (layout.2 : Int)
    if 0 ≤ rank ∧ rank < l0 * l1 then
      let a := l1 - 1 - rank.fmod l1
      let b := rank.fdiv l1
      if a < l0 ∧ b < l1 then .ok (a * l1 + b) else .error .indexError
    else
      .error .indexError
  else
    .error .notImplementedError

/-- Modelled from the spec: the `constants` module's dimension-name sets
(`X_DIMS`, `Y_DIMS`, and the non-horizontal names) are not in the sources; a
dimension name is horizontal along the y axis, horizontal along the x axis,
or non-horizontal. -/
inductive Axis where
  | y
  | x
  | nonHorizontal
  deriving DecidableEq, Repr

/-- Modelled from the spec: a dimension name, reduced to the two checks the
core performs on it — which axis set it belongs to, and whether it is in
`constants.INTERFACE_DIMS` (a grid-line-sharing dimension). -/
structure Dim where
  axis : Axis
  interface : Bool
  deriving DecidableEq, Repr

/-- Modelled from the spec: `utils.list_by_dims(dims, horizontal_values,
non_horizontal_value)` (the `utils` module is not in the sources) maps each
y-dimension to the first horizontal value, each x-dimension to the second,
and every other dimension to `non_horizontal_value`. -/
def list_by_dims {α : Type} (dims : List Dim) (horizontal_values : α × α)
    (non_horizontal_value : α) : List α :=
  dims.map (fun d =>
    match d.axis with
    | .y => horizontal_values.1
    | .x => horizontal_values.2
    | .nonHorizontal => non_horizontal_value)

/-- Python `int()` applied to an exact number: truncation toward zero.  The
source performs the `layout_factor` arithmetic in numpy float64; it is
embedded here as exact rational arithmetic followed by this truncation. -/
def pyInt (q : ℚ) : Int :=
  q.num.tdiv (q.den : Int)

/-- One iteration of the loop in `extent_from_metadata` when the numpy
`layout_factors` array has int64 dtype (the `tile_extent_from_rank_metadata`
direction): `add_extent = -1` for interface dimensions else `0`, and the
returned entry is `int((rank_extent + add_extent) * layout_factor -
add_extent)`, which int64 computes exactly. -/
def extent_from_metadata_1d (dim : Dim) (rank_extent : Int) (layout_factor : ℚ) : Int :=
  let add_extent : Int := if dim.interface then -1 else 0
  pyInt (((rank_extent + add_extent : Int) : ℚ) * layout_factor - (add_extent : ℚ))

/-- `extent_from_metadata(dims, extent, layout_factors)` with integer (int64)
factors: zips the three sequences and applies the per-dimension rule. -/
def extent_from_metadata (dims : List Dim) (extent : List Int)
    (layout_factors : List ℚ) : List Int :=
  (dims.zip (extent.zip layout_factors)).map
    (fun p => extent_from_metadata_1d p.1 p.2.1 p.2.2)

/-- `tile_extent_from_rank_metadata(dims, rank_extent, layout)`:
`layout_factors = np.asarray(list_by_dims(dims, layout, 1))`, an int64
array, so `(rank_extent + add_extent) * layout_factor - add_extent` is exact
integer arithmetic. -/
def tile_extent_from_rank_metadata (dims : List Dim) (rank_extent : List Int)
    (layout : Nat × Nat) : List Int :=
  extent_from_metadata dims rank_extent
    ((list_by_dims dims layout 1 : List Nat).map (fun (n : Nat) => (n : ℚ)))

/-- `tile_extent_from_rank_metadata` restricted to one dimension whose layout
factor is `n`. -/
def tileExtent1 (dim : Dim) (rank_extent : Int) (n : Nat) : Int :=
  extent_from_metadata_1d dim rank_extent (n : ℚ)

/-!
An IEEE binary64 ("float64") model, needed for the
`rank_extent_from_tile_metadata` direction: there the source computes
`layout_factors = 1 / np.asarray(...)`, a float64 array, and the whole
per-dimension expression `(extent + add_extent) * layout_factor - add_extent`
is evaluated in float64 before `int()` truncates it.  Float64 rounding is
observable: in binary64, `int(49 * (1/49)) == 0`.

A float64 value is modelled as a pair `(m, e)` denoting `m * 2^e`; every
operation rounds its exact dyadic result to 53 significant bits with the
IEEE round-to-nearest, ties-to-even rule.  The model covers the binary64
normal range (no overflow, underflow or subnormals), which contains every
value these extent computations produce for realistic inputs; fixed fuel of
512 bounds the bit-length recursion, far above any bit length reachable
here.
-/

/-- Fuel-bounded floor of log base 2 (structural recursion on the fuel). -/
def log2fuel : Nat → Nat → Nat
  | 0, _ => 0
  | fuel + 1, n => if n < 2 then 0 else log2fuel fuel (n / 2) + 1

/-- `⌊log2 n⌋` for `n ≥ 1` (correct for `n < 2^512`). -/
def pyNatLog2 (n : Nat) : Nat :=
  log2fuel 512 n

/-- A model float64 value `m * 2^e` (unnormalised dyadic pair; rounded
results carry at most 54 bits of significand). -/
structure F64 where
  m : Int
  e : Int
  deriving DecidableEq, Repr

/-- Round the exact dyadic value `m * 2^e` to 53 significant bits with the
round-to-nearest, ties-to-even rule — the IEEE binary64 rounding of any
normal-range real given here as a dyadic. -/
def roundDyadic (m : Int) (e : Int) : F64 :=
  if m = 0 then ⟨0, 0⟩
  else
    let a := m.natAbs
    let bits := pyNatLog2 a + 1
    if bits ≤ 53 then ⟨m, e⟩
    else
      let s := bits - 53
      let q := a / 2 ^ s
      let r := a % 2 ^ s
      let half := 2 ^ (s - 1)
      let q' : Nat :=
        if r < half then q
        else if half < r then q + 1
        else if q % 2 = 0 then q else q + 1
      ⟨m.sign * (q' : Int), e + (s : Int)⟩

/-- Conversion of a Python int to float64 (exact below `2^53`, rounded
above). -/
def intToF64 (k : Int) : F64 :=
  roundDyadic k 0

/-- float64 multiplication: round the exact product. -/
def fmul64 (x y : F64) : F64 :=
  roundDyadic (x.m * y.m) (x.e + y.e)

/-- float64 subtraction: round the exact difference. -/
def fsub64 (x y : F64) : F64 :=
  let e := min x.e y.e
  roundDyadic (x.m * 2 ^ (x.e - e).toNat - y.m * 2 ^ (y.e - e).toNat) e

/-- float64 division: the exact quotient is not dyadic in general, so the
quotient is computed with 128 guard bits and a sticky bit recording a
non-zero remainder, then rounded; with these guard bits this yields the
correctly rounded IEEE quotient for all operands arising here (checked
against binary64 arithmetic for every reciprocal `1/n`, `n ≤ 2999`). -/
def fdiv64 (x y : F64) : F64 :=
  if y.m = 0 then ⟨0, 0⟩
  else
    let a := x.m.natAbs
    let b := y.m.natAbs
    let q := a * 2 ^ 128 / b
    let r := a * 2 ^ 128 % b
    let M : Nat := 2 * q + (if r = 0 then 0 else 1)
    roundDyadic (x.m.sign * y.m.sign * (M : Int)) (x.e - y.e - 129)

/-- Python `int()` of a float64 value: truncation toward zero. -/
def f64toInt (x : F64) : Int :=
  if 0 ≤ x.e then x.m * 2 ^ x.e.toNat else x.m.tdiv (2 ^ (-x.e).toNat)

/-- One entry of the float64 array `1 / np.asarray(list_by_dims(...))`: the
int64 layout factor converted to float64, divided into 1.0. -/
def factor64 (n : Nat) : F64 :=
  fdiv64 (intToF64 1) (intToF64 (n : Int))

/-- One iteration of the loop in `extent_from_metadata` when
`layout_factors` has float64 dtype (the `rank_extent_from_tile_metadata`
direction): `(extent + add_extent)` is converted to float64, multiplied by
the factor and `add_extent` subtracted, each step rounding, then `int()`
truncates. -/
def extent_from_metadata_1d_f64 (dim : Dim) (tile_extent : Int)
    (layout_factor : F64) : Int :=
  let add_extent : Int := if dim.interface then -1 else 0
  f64toInt (fsub64 (fmul64 (intToF64 (tile_extent + add_extent)) layout_factor)
    (intToF64 add_extent))

/-- `rank_extent_from_tile_metadata(dims, tile_extent, layout)`:
`layout_factors = 1 / np.asarray(list_by_dims(dims, layout, 1))` — a
float64 array — then the same zip as `extent_from_metadata`, evaluated in
float64. -/
def rank_extent_from_tile_metadata (dims : List Dim) (tile_extent : List Int)
    (layout : Nat × Nat) : List Int :=
  (dims.zip (tile_extent.zip
      ((list_by_dims dims layout 1 : List Nat).map factor64))).map
    (fun p => extent_from_metadata_1d_f64 p.1 p.2.1 p.2.2)

/-- `rank_extent_from_tile_metadata` restricted to one dimension whose
layout factor is the float64 value of `1/n`. -/
def rankExtent1 (dim : Dim) (tile_extent : Int) (n : Nat) : Int :=
  extent_from_metadata_1d_f64 dim tile_extent (factor64 n)

/-- The `_IndexData1D` dataclass. -/
structure IndexData1D where
  dim : Dim
  extent : Int
  i_subtile : Int
  n_ranks : Int
  deriving DecidableEq, Repr

/-- `_IndexData1D.extent_minus_gridcell_count`. -/
def IndexData1D.extent_minus_gridcell_count (x : IndexData1D) : Int :=
  if x.dim.interface then 1 else 0

/-- `_IndexData1D.base_extent = extent - extent_minus_gridcell_count`. -/
def IndexData1D.base_extent (x : IndexData1D) : Int :=
  x.extent - x.extent_minus_gridcell_count

/-- `_IndexData1D.is_end_index: i_subtile == n_ranks - 1`. -/
def IndexData1D.is_end_index (x : IndexData1D) : Bool :=
  x.i_subtile == x.n_ranks - 1

/-- The loop body of `subtile_slice`: `start = i_subtile * base_extent`, and
`end = start + extent` when this rank is last along the axis or `overlap` is
set, else `end = start + base_extent`; a Python `slice(start, end)` is the
half-open index range `[start, end)`. -/
def slice_from_index_data (overlap : Bool) (x : IndexData1D) : Int × Int :=
  let start := x.i_subtile * x.base_extent
  if x.is_end_index || overlap then (start, start + x.extent)
  else (start, start + x.base_extent)

/-- `_index_generator(dims, tile_extent, subtile_index, horizontal_layout)`.
Modelled from the spec: the `subtile_index` argument is passed through
`utils.list_by_dims` (not in the sources), which selects the canonical
(row, column) pair — row for y-dimensions, column for x-dimensions, `0`
for non-horizontal dimensions — keyed by `layout.rows`/`layout.columns`. -/
def index_generator (dims : List Dim) (tile_extent : List Int)
    (subtile_idx : Int × Int) (horizontal_layout : Nat × Nat) : List IndexData1D :=
  let subtile_extent := rank_extent_from_tile_metadata dims tile_extent horizontal_layout
  let quantity_layout : List Nat := list_by_dims dims horizontal_layout 1
  let quantity_subtile_index := list_by_dims dims subtile_idx 0
  (dims.zip (subtile_extent.zip (quantity_subtile_index.zip quantity_layout))).map
    (fun p => ⟨p.1, p.2.1, p.2.2.1, (p.2.2.2 : Int)⟩)

/-- `subtile_slice(dims, global_extent, layout, subtile_index, overlap)`: one
half-open range per dimension, built by mapping the loop body over
`_index_generator`. -/
def subtile_slice (dims : List Dim) (global_extent : List Int)
    (layout : Nat × Nat) (subtile_idx : Int × Int) (overlap : Bool) :
    List (Int × Int) :=
  (index_generator dims global_extent subtile_idx layout).map
    (slice_from_index_data overlap)

/-!
A small heap model for the memoization cache of `TilePartitioner`.

`TilePartitioner.boundary` returns `copy.copy(self._cached_boundary(...))`:
the `functools.lru_cache` stores the canonical descriptor object, and every
public call returns a freshly allocated copy of it.  Since all fields of
`SimpleBoundary` are Python ints, the shallow `copy.copy` shares no mutable
state with the cached object.  The heap model makes object identity explicit:
`heap` holds the mutable contents of every allocated descriptor object, and
`cache` maps a `(boundary_type, rank)` key to the address of its canonical
cached object.
-/

/-- The mutable state of one `TilePartitioner` instance: allocated descriptor
objects (addressed by list position) and the `lru_cache` key-to-object map. -/
structure CacheState where
  heap : List SimpleBoundary
  cache : List ((BType × Int) × Nat)

/-- Lookup in the memoization map. -/
def find_addr (key : BType × Int) : List ((BType × Int) × Nat) → Option Nat
  | [] => none
  | (k, a) :: rest => if k = key then some a else find_addr key rest

/-- The contents of the object at address `a`. -/
def CacheState.cell (s : CacheState) (a : Nat) : SimpleBoundary :=
  s.heap.getD a default

/-- `TilePartitioner.boundary(boundary_type, rank)` as a state transformer:
on a cache miss, `_cached_boundary` computes the descriptor and the
`lru_cache` retains that object; either way `copy.copy` allocates a fresh
object with the same field values, whose address is returned to the caller. -/
def tile_query_boundary (layout : Nat × Nat) (boundary_type : BType) (rank : Int)
    (s : CacheState) : CacheState × Nat :=
  match find_addr (boundary_type, rank) s.cache with
  | some a =>
      (⟨s.heap ++ [s.cell a], s.cache⟩, s.heap.length)
  | none =>
      let v := tileBoundaryCompute layout boundary_type rank
      (⟨s.heap ++ [v, v], s.cache ++ [((boundary_type, rank), s.heap.length)]⟩,
        s.heap.length + 1)

/-- A caller mutating the fields of the object it was returned: the cell at
address `a` is overwritten in place. -/
def mutate_cell (a : Nat) (b : SimpleBoundary) (s : CacheState) : CacheState :=
  ⟨s.heap.set a b, s.cache⟩

/-- The cache invariant: every memoized address is allocated and its object
still holds the value `_cached_boundary` computed for its key. -/
def CacheWF (layout : Nat × Nat) (s : CacheState) : Prop :=
  ∀ boundary_type rank a, find_addr (boundary_type, rank) s.cache = some a →
    a < s.heap.length ∧ s.cell a = tileBoundaryCompute layout boundary_type rank

/-! ## Theorems -/

/-- C1: for layout `(2,2)` (24 total ranks): `get_tile_index(0, 24) == 0`;
the cube SOUTHWEST query for rank 0 yields the explicit no-neighbor result
`None`; `_right_edge(0)` computes the one-element descriptor list with
rotation count 0 and target rank 1 — but the public EAST boundary query
(`_cached_boundary`) raises `AttributeError` when it executes
`boundary.to_rank % total_ranks` on that list, instead of returning the
descriptor as the claim states. -/
theorem claim_c1_concrete_scenario :
    get_tile_index 0 24 = .ok 0 ∧
    cube_cached_boundary (2, 2) .southwest 0 = .ok none ∧
    cube_right_edge (2, 2) 0 =
      [{ boundary_type := .east, from_rank := 0, to_rank := 1,
         n_clockwise_rotations := 0 }] ∧
    cube_cached_boundary (2, 2) .east 0 = .error .attributeError :=
  ⟨rfl, rfl, rfl, rfl⟩

/-- C5: the target rank computed by `CubedSpherePartitioner._top_edge` for
the top-left rank of face 5 under layout `(1,1)` (cube total 6) is exactly
`6 == total_ranks`, which the `if to_rank > total_ranks` guard does not
reduce — so this target is NOT in `[0, total_ranks)`, contradicting the
claim that targets are always finally reduced modulo the total rank count. -/
theorem claim_c5_unreduced_target :
    cube_top_edge (1, 1) 5 =
      [{ boundary_type := .north, from_rank := 5, to_rank := 6,
         n_clockwise_rotations := 0 }] ∧
    cube_total_ranks (1, 1) = 6 ∧
    ¬ ((6 : Int) < cube_total_ranks (1, 1)) :=
  ⟨rfl, rfl, by decide⟩

/-- C6 counterexample: at `total_ranks = 0` we have `0 % 6 == 0`, yet
`get_tile_index` raises — and the exception is a `ZeroDivisionError`, not
the configuration `ValueError`, and no value `rank // (total_ranks // 6)`
is returned; so the claimed "error iff `total_ranks % 6 != 0`" equivalence
fails at this input. -/
theorem claim_c6_counterexample :
    get_tile_index 0 0 = .error .zeroDivisionError ∧ (0 : Int).fmod 6 = 0 :=
  ⟨rfl, rfl⟩

/-- C6 (amended to `total_ranks ≠ 0`): `get_tile_index` raises the
configuration `ValueError` exactly when `total_ranks % 6 != 0`, otherwise
returns `rank // (total_ranks // 6)`, which lies in `[0, 5]` whenever
`0 ≤ rank < total_ranks`. -/
theorem claim_c6_face_index (rank total_ranks : Int) (h : total_ranks ≠ 0) :
    (total_ranks.fmod 6 ≠ 0 → get_tile_index rank total_ranks = .error .valueError) ∧
    (total_ranks.fmod 6 = 0 →
      get_tile_index rank total_ranks = .ok (rank.fdiv (total_ranks.fdiv 6))) ∧
    (total_ranks.fmod 6 = 0 → 0 ≤ rank → rank < total_ranks →
      ∃ face, get_tile_index rank total_ranks = .ok face ∧ 0 ≤ face ∧ face ≤ 5) := by
  have h6 : (0 : Int) ≤ 6 := by norm_num
  refine ⟨fun hmod => by simp [get_tile_index, hmod], fun hmod => ?_, ?_⟩
  · have hdvd : (6 : Int) ∣ total_ranks := by
      have := Int.fmod_eq_emod total_ranks h6
      omega
    have hne : total_ranks.fdiv 6 ≠ 0 := by
      rw [Int.fdiv_eq_ediv _ h6]
      obtain ⟨k, hk⟩ := hdvd
      subst hk
      rw [Int.mul_ediv_cancel_left _ (by norm_num)]
      intro hk0
      exact h (by simp [hk0])
    simp [get_tile_index, hmod, hne]
  · intro hmod hr0 hrt
    have hpos : 0 < total_ranks := lt_of_le_of_lt hr0 hrt
    have hdvd : (6 : Int) ∣ total_ranks := by
      have := Int.fmod_eq_emod total_ranks h6
      omega
    obtain ⟨k, hk⟩ := hdvd
    have hkpos : 0 < k := by nlinarith
    have hdiv6 : total_ranks.fdiv 6 = k := by
      rw [Int.fdiv_eq_ediv _ h6, hk, Int.mul_ediv_cancel_left _ (by norm_num)]
    have hne : total_ranks.fdiv 6 ≠ 0 := by rw [hdiv6]; omega
    refine ⟨rank.fdiv (total_ranks.fdiv 6), by simp [get_tile_index, hmod, hne], ?_, ?_⟩
    · rw [hdiv6, Int.fdiv_eq_ediv _ (le_of_lt hkpos)]
      exact Int.ediv_nonneg hr0 (le_of_lt hkpos)
    · rw [hdiv6, Int.fdiv_eq_ediv _ (le_of_lt hkpos)]
      have : rank / k < 6 := by
        rw [Int.ediv_lt_iff_lt_mul hkpos]
        nlinarith
      omega

/-- Witness for C6 at `rank = 7`, `total_ranks = 24`. -/
theorem claim_c6_face_index_witness :
    get_tile_index 7 24 = .ok ((7 : Int).fdiv ((24 : Int).fdiv 6)) ∧
    (∃ face, get_tile_index 7 24 = .ok face ∧ 0 ≤ face ∧ face ≤ 5) :=
  ⟨(claim_c6_face_index 7 24 (by decide)).2.1 (by decide),
   (claim_c6_face_index 7 24 (by decide)).2.2 (by decide) (by decide) (by decide)⟩

/-- C7 counterexample: `rotate_subtile_rank(0, (1,1), 0)` returns the rank
unchanged instead of raising the unimplemented error, so the rotation count
`0` (which is "other than one single clockwise quarter turn") does not
raise. -/
theorem claim_c7_counterexample :
    rotate_subtile_rank 0 (1, 1) 0 = .ok 0 ∧
    rotate_subtile_rank 0 (1, 1) 0 ≠ .error .notImplementedError :=
  ⟨rfl, by decide⟩

/-- C7 (amended): `rotate_subtile_rank` raises the unimplemented error for
every rotation count other than `0` and `1`, and returns the rank unchanged
at rotation count `0`. -/
theorem claim_c7_rotation_guard (rank : Int) (layout : Nat × Nat) (n : Int) :
    (n ≠ 0 → n ≠ 1 →
      rotate_subtile_rank rank layout n = .error .notImplementedError) ∧
    rotate_subtile_rank rank layout 0 = .ok rank := by
  constructor
  · intro h0 h1
    simp [rotate_subtile_rank, h0, h1]
  · simp [rotate_subtile_rank]

/-- Witness for C7 at `rank = 3`, layout `(2,2)`, rotation count `5`. -/
theorem claim_c7_rotation_guard_witness :
    rotate_subtile_rank 3 (2, 2) 5 = .error .notImplementedError ∧
    rotate_subtile_rank 3 (2, 2) 0 = .ok 3 :=
  ⟨(claim_c7_rotation_guard 3 (2, 2) 5).1 (by decide) (by decide),
   (claim_c7_rotation_guard 3 (2, 2) 0).2⟩

/-- C8 counterexample: under the non-square layout `(1,2)` the cube-level
SOUTHWEST boundary query for rank 0 returns the absent-corner result `None`
— a result, not the unsupported-configuration error the claim requires. -/
theorem claim_c8_counterexample :
    cube_cached_boundary (1, 2) .southwest 0 = .ok none ∧ (1 : Nat) ≠ 2 :=
  ⟨rfl, by decide⟩

/-- C8 (amended): `_ensure_square_layout` raises the
unsupported-configuration error exactly when `rows ≠ columns`, but no
boundary query invokes it: under the non-square layout `(1,2)` the
SOUTHWEST query for rank 0 returns the absent-corner result, and the EAST
query fails with `AttributeError` — neither raises the
unsupported-configuration error. -/
theorem claim_c8_square_guard :
    (∀ l0 l1 : Nat,
      (ensure_square_layout (l0, l1) = .error .notImplementedError ↔ l0 ≠ l1)) ∧
    cube_cached_boundary (1, 2) .southwest 0 = .ok none ∧
    cube_cached_boundary (1, 2) .east 0 = .error .attributeError := by
  refine ⟨fun l0 l1 => ?_, rfl, rfl⟩
  by_cases h : l0 = l1 <;> simp [ensure_square_layout, h]

/-- C10: for every valid layout and rank, the face-level corner boundary
query in each diagonal direction always returns a descriptor (never the
absent result) whose rotation count is 0. -/
theorem claim_c10_tile_corners (layout : Nat × Nat)
    (h0 : 0 < layout.1) (h1 : 0 < layout.2) (rank : Int) (d : BType)
    (hd : d = .northwest ∨ d = .northeast ∨ d = .southwest ∨ d = .southeast) :
    ∃ b, tileCachedBoundary layout d rank = some b ∧
      b.n_clockwise_rotations = 0 := by
  rcases hd with h | h | h | h <;> subst h <;>
    exact ⟨_, rfl, by
      simp [tileBoundaryCompute, tile_top_left_corner, tile_top_right_corner,
        tile_bottom_left_corner, tile_bottom_right_corner, tile_get_corner,
        tile_left_edge, tile_right_edge, tile_top_edge, tile_bottom_edge]⟩

/-- Witness for C10 at layout `(2,2)`, rank 0, direction SOUTHWEST. -/
theorem claim_c10_tile_corners_witness :
    ∃ b, tileCachedBoundary (2, 2) .southwest 0 = some b ∧
      b.n_clockwise_rotations = 0 :=
  claim_c10_tile_corners (2, 2) (by decide) (by decide) 0 .southwest
    (Or.inr (Or.inr (Or.inl rfl)))

/-- C4: for every positive layout and every rank in `[0, 6*rows*columns)`,
`face * ranksPerFace + row * columns + column` rebuilt from
`get_tile_index` and the `(j, l)` components of `subtile_index` (the
canonical row and column) reproduces the rank. -/
theorem claim_c4_rank_round_trip (l0 l1 : Nat) (h0 : 0 < l0) (h1 : 0 < l1)
    (rank : Int) (hr0 : 0 ≤ rank) (hr : rank < 6 * ((l0 : Int) * (l1 : Int))) :
    ∃ face : Int,
      get_tile_index rank (6 * ((l0 : Int) * (l1 : Int))) = .ok face ∧
      face * ((l0 : Int) * (l1 : Int)) +
        (subtile_index rank ((l0 : Int) * (l1 : Int)) (l0, l1)).j * (l1 : Int) +
        (subtile_index rank ((l0 : Int) * (l1 : Int)) (l0, l1)).l = rank := by
  have hT : (0 : Int) < (l0 : Int) * (l1 : Int) := by
    have : (0 : Int) < (l0 : Int) := by exact_mod_cast h0
    have : (0 : Int) < (l1 : Int) := by exact_mod_cast h1
    positivity
  have hl1 : (0 : Int) < (l1 : Int) := by exact_mod_cast h1
  set T : Int := (l0 : Int) * (l1 : Int) with hTdef
  have hmod : (6 * T).fmod 6 = 0 := by
    rw [Int.fmod_eq_emod _ (by norm_num)]
    exact Int.mul_emod_right 6 T
  have hdiv : (6 * T).fdiv 6 = T := by
    rw [Int.fdiv_eq_ediv _ (by norm_num)]
    exact Int.mul_ediv_cancel_left T (by norm_num)
  have hTne : T ≠ 0 := ne_of_gt hT
  refine ⟨rank.fdiv T, ?_, ?_⟩
  · simp [get_tile_index, hmod, hdiv, hTne]
  · simp only [subtile_index]
    rw [Int.fdiv_eq_ediv _ (le_of_lt hT), Int.fmod_eq_emod _ (le_of_lt hT),
      Int.fdiv_eq_ediv _ (le_of_lt hl1), Int.fmod_eq_emod _ (le_of_lt hl1)]
    have e1 : T * (rank / T) + rank % T = rank := Int.ediv_add_emod rank T
    have e2 : (l1 : Int) * (rank % T / (l1 : Int)) + rank % T % (l1 : Int) = rank % T :=
      Int.ediv_add_emod (rank % T) (l1 : Int)
    linarith

/-- Witness for C4 at layout `(2,2)`, rank 13. -/
theorem claim_c4_rank_round_trip_witness :
    ∃ face : Int,
      get_tile_index 13 (6 * (((2 : Nat) : Int) * ((2 : Nat) : Int))) = .ok face ∧
      face * (((2 : Nat) : Int) * ((2 : Nat) : Int)) +
        (subtile_index 13 (((2 : Nat) : Int) * ((2 : Nat) : Int)) (2, 2)).j * ((2 : Nat) : Int) +
        (subtile_index 13 (((2 : Nat) : Int) * ((2 : Nat) : Int)) (2, 2)).l = 13 :=
  claim_c4_rank_round_trip 2 2 (by decide) (by decide) 13 (by decide) (by decide)

theorem list_getD_set_ne {α : Type} (l : List α) (m a : Nat) (b d : α)
    (h : a ≠ m) : (l.set m b).getD a d = l.getD a d := by
  induction l generalizing m a with
  | nil => simp
  | cons x t ih =>
    cases m with
    | zero =>
      cases a with
      | zero => omega
      | succ a' => simp
    | succ m' =>
      cases a with
      | zero => simp
      | succ a' => simpa using ih m' a' (by omega)

theorem find_addr_append_elim (key k : BType × Int)
    (c : List ((BType × Int) × Nat)) (n a : Nat)
    (h : find_addr key (c ++ [(k, n)]) = some a) :
    find_addr key c = some a ∨ (find_addr key c = none ∧ k = key ∧ a = n) := by
  induction c with
  | nil =>
    by_cases hk : k = key
    · simp [find_addr, hk] at h
      exact Or.inr ⟨rfl, hk, h.symm⟩
    · simp [find_addr, hk] at h
  | cons hd t ih =>
    obtain ⟨k0, a0⟩ := hd
    by_cases h0 : k0 = key
    · simp [find_addr, h0] at h ⊢
      exact h
    · simp only [List.cons_append, find_addr, h0, if_false] at h ⊢
      exact ih h

theorem tile_query_value (layout : Nat × Nat) (bt : BType) (rank : Int)
    (s : CacheState) (hWF : CacheWF layout s) :
    ((tile_query_boundary layout bt rank s).1).cell
      (tile_query_boundary layout bt rank s).2 =
      tileBoundaryCompute layout bt rank := by
  unfold tile_query_boundary
  cases hf : find_addr (bt, rank) s.cache with
  | some a =>
    simp only [CacheState.cell]
    rw [List.getD_append_right _ _ _ _ (le_refl _)]
    simp only [Nat.sub_self, List.getD_cons_zero]
    exact (hWF bt rank a hf).2
  | none =>
    simp only [CacheState.cell]
    rw [List.getD_append_right _ _ _ _ (by omega)]
    simp

theorem tile_query_preserves_wf (layout : Nat × Nat) (bt : BType) (rank : Int)
    (s : CacheState) (hWF : CacheWF layout s) :
    CacheWF layout (tile_query_boundary layout bt rank s).1 := by
  unfold tile_query_boundary
  cases hf : find_addr (bt, rank) s.cache with
  | some a =>
    intro bt' r' a' hfind
    obtain ⟨hlt, hval⟩ := hWF bt' r' a' hfind
    refine ⟨by simp; omega, ?_⟩
    simp only [CacheState.cell] at hval ⊢
    rw [List.getD_append _ _ _ _ hlt]
    exact hval
  | none =>
    intro bt' r' a' hfind
    rcases find_addr_append_elim _ _ _ _ _ hfind with hold | ⟨_, hkey, ha⟩
    · obtain ⟨hlt, hval⟩ := hWF bt' r' a' hold
      refine ⟨by simp; omega, ?_⟩
      simp only [CacheState.cell] at hval ⊢
      rw [List.getD_append _ _ _ _ hlt]
      exact hval
    · obtain ⟨hbt, hr⟩ := Prod.mk.injEq .. ▸ hkey
      subst ha
      refine ⟨by simp, ?_⟩
      simp only [CacheState.cell]
      rw [List.getD_append_right _ _ _ _ (le_refl _)]
      simp only [Nat.sub_self, List.getD_cons_zero]
      rw [← hbt, ← hr]

theorem tile_query_fresh (layout : Nat × Nat) (bt : BType) (rank : Int)
    (s : CacheState) (hWF : CacheWF layout s) :
    ∀ bt' r' a', find_addr (bt', r') ((tile_query_boundary layout bt rank s).1).cache
      = some a' → a' ≠ (tile_query_boundary layout bt rank s).2 := by
  intro bt' r' a' hfind
  cases hf : find_addr (bt, rank) s.cache with
  | some a =>
    simp only [tile_query_boundary, hf] at hfind ⊢
    have := (hWF bt' r' a' hfind).1
    omega
  | none =>
    simp only [tile_query_boundary, hf] at hfind ⊢
    rcases find_addr_append_elim _ _ _ _ _ hfind with hold | ⟨_, _, ha⟩
    · have := (hWF bt' r' a' hold).1
      omega
    · omega

theorem mutate_preserves_wf (layout : Nat × Nat) (s : CacheState) (m : Nat)
    (b : SimpleBoundary) (hWF : CacheWF layout s)
    (hfresh : ∀ bt r a, find_addr (bt, r) s.cache = some a → a ≠ m) :
    CacheWF layout (mutate_cell m b s) := by
  intro bt r a hf
  obtain ⟨hlt, hval⟩ := hWF bt r a hf
  refine ⟨by simpa [mutate_cell] using hlt, ?_⟩
  simp only [mutate_cell, CacheState.cell] at hval ⊢
  rw [list_getD_set_ne _ _ _ _ _ (hfresh bt r a hf)]
  exact hval

/-- C2: at face level the copy discipline holds: a public boundary query
returns a freshly allocated object holding `_cached_boundary`'s value, and
after the caller overwrites that object arbitrarily, any subsequent query
(same key or another) still returns the computed value — the cache entry is
never aliased by a returned result.  At cube level the claim fails: the
public query raises `AttributeError` (here for WEST, rank 0, layout (2,2))
because `_cached_boundary` reads `.to_rank` from the `list` produced by the
edge methods, so no (deep-)copied descriptor is returned at all. -/
theorem claim_c2_copy_isolation (layout : Nat × Nat) (bt : BType) (rank : Int)
    (s : CacheState) (hWF : CacheWF layout s) (b : SimpleBoundary)
    (bt2 : BType) (rank2 : Int) :
    (((tile_query_boundary layout bt rank s).1).cell
        (tile_query_boundary layout bt rank s).2 =
      tileBoundaryCompute layout bt rank) ∧
    (((tile_query_boundary layout bt2 rank2
          (mutate_cell (tile_query_boundary layout bt rank s).2 b
            (tile_query_boundary layout bt rank s).1)).1).cell
        (tile_query_boundary layout bt2 rank2
          (mutate_cell (tile_query_boundary layout bt rank s).2 b
            (tile_query_boundary layout bt rank s).1)).2 =
      tileBoundaryCompute layout bt2 rank2) ∧
    cube_cached_boundary (2, 2) .west 0 = .error .attributeError := by
  have h1 := tile_query_value layout bt rank s hWF
  have hwf1 := tile_query_preserves_wf layout bt rank s hWF
  have hfresh := tile_query_fresh layout bt rank s hWF
  have hwf2 := mutate_preserves_wf layout (tile_query_boundary layout bt rank s).1
    (tile_query_boundary layout bt rank s).2 b hwf1 hfresh
  exact ⟨h1, tile_query_value layout bt2 rank2 _ hwf2, rfl⟩

/-- Witness for C2: a fresh partitioner state, a WEST rank-0 query under
layout `(2,2)`, an arbitrary overwrite of the returned object, and a repeat
query. -/
theorem claim_c2_copy_isolation_witness :
    (((tile_query_boundary (2, 2) .west 0 ⟨[], []⟩).1).cell
        (tile_query_boundary (2, 2) .west 0 ⟨[], []⟩).2 =
      tileBoundaryCompute (2, 2) .west 0) ∧
    (((tile_query_boundary (2, 2) .west 0
          (mutate_cell (tile_query_boundary (2, 2) .west 0 ⟨[], []⟩).2
            ⟨.east, 9, 9, 9⟩
            (tile_query_boundary (2, 2) .west 0 ⟨[], []⟩).1)).1).cell
        (tile_query_boundary (2, 2) .west 0
          (mutate_cell (tile_query_boundary (2, 2) .west 0 ⟨[], []⟩).2
            ⟨.east, 9, 9, 9⟩
            (tile_query_boundary (2, 2) .west 0 ⟨[], []⟩).1)).2 =
      tileBoundaryCompute (2, 2) .west 0) ∧
    cube_cached_boundary (2, 2) .west 0 = .error .attributeError :=
  claim_c2_copy_isolation (2, 2) .west 0 ⟨[], []⟩
    (by intro bt r a h; simp [find_addr] at h) ⟨.east, 9, 9, 9⟩ .west 0

/-- The layout factor `list_by_dims(dims, layout, 1)` assigns to one
dimension. -/
def layout_factor_1 (d : Dim) (layout : Nat × Nat) : Nat :=
  match d.axis with
  | .y => layout.1
  | .x => layout.2
  | .nonHorizontal => 1

theorem pyInt_intCast (m : Int) : pyInt ((m : ℚ)) = m := by
  simp [pyInt, Rat.num_intCast, Rat.den_intCast]

theorem tileExtent1_eq (d : Dim) (e : Int) (n : Nat) :
    tileExtent1 d e n =
      if d.interface then (e - 1) * (n : Int) + 1 else e * (n : Int) := by
  by_cases h : d.interface
  · rw [if_pos h]
    unfold tileExtent1 extent_from_metadata_1d
    rw [if_pos h]
    convert pyInt_intCast ((e - 1) * (n : Int) + 1) using 2
    push_cast
    ring
  · rw [if_neg h]
    unfold tileExtent1 extent_from_metadata_1d
    rw [if_neg h]
    convert pyInt_intCast (e * (n : Int)) using 2
    push_cast
    ring

theorem list_by_dims_eq_map (dims : List Dim) (layout : Nat × Nat) :
    list_by_dims dims layout 1 = dims.map (fun d => layout_factor_1 d layout) := by
  unfold list_by_dims layout_factor_1
  rfl

theorem zip_factor_map {γ δ : Type} (g : Dim → γ) (h : Dim → Int → γ → δ)
    (dims : List Dim) (ext : List Int) :
    (dims.zip (ext.zip (dims.map g))).map (fun p => h p.1 p.2.1 p.2.2) =
      (dims.zip ext).map (fun p => h p.1 p.2 (g p.1)) := by
  induction dims generalizing ext with
  | nil => simp
  | cons d t ih =>
    cases ext with
    | nil => simp
    | cons e te =>
      simp only [List.map_cons, List.zip_cons_cons, List.map] at ih ⊢
      exact congrArg _ (ih te)

theorem extent_from_metadata_factors (dims : List Dim) (ext : List Int)
    (f : Dim → ℚ) :
    extent_from_metadata dims ext (dims.map f) =
      (dims.zip ext).map (fun p => extent_from_metadata_1d p.1 p.2 (f p.1)) := by
  unfold extent_from_metadata
  exact zip_factor_map f (fun d e q => extent_from_metadata_1d d e q) dims ext

theorem tile_extent_eq_map (dims : List Dim) (ext : List Int) (layout : Nat × Nat) :
    tile_extent_from_rank_metadata dims ext layout =
      (dims.zip ext).map (fun p => tileExtent1 p.1 p.2 (layout_factor_1 p.1 layout)) := by
  unfold tile_extent_from_rank_metadata tileExtent1
  rw [list_by_dims_eq_map, List.map_map]
  exact extent_from_metadata_factors dims ext _

theorem rank_extent_eq_map (dims : List Dim) (ext : List Int) (layout : Nat × Nat) :
    rank_extent_from_tile_metadata dims ext layout =
      (dims.zip ext).map (fun p => rankExtent1 p.1 p.2 (layout_factor_1 p.1 layout)) := by
  unfold rank_extent_from_tile_metadata rankExtent1
  rw [list_by_dims_eq_map, List.map_map]
  exact zip_factor_map _ (fun d e q => extent_from_metadata_1d_f64 d e q) dims ext

theorem zip_zip_map {α β γ δ : Type} (f : α → β → γ) (g : α → γ → δ)
    (as : List α) (bs : List β) :
    (as.zip ((as.zip bs).map (fun p => f p.1 p.2))).map (fun p => g p.1 p.2) =
      (as.zip bs).map (fun p => g p.1 (f p.1 p.2)) := by
  induction as generalizing bs with
  | nil => simp
  | cons a t ih =>
    cases bs with
    | nil => simp
    | cons b tb => simp [ih]

/-- C9 counterexample: the round-trip conjunct of the claim is false of the
program because the rank-extent direction is computed in float64: for one
center x-dimension of rank extent 1 under 49 ranks on the x-axis, the face
extent is 49, but the rank extent computed back from it is
`int(49 * float64(1/49)) = 0`, not 1. -/
theorem claim_c9_counterexample :
    tile_extent_from_rank_metadata [⟨.x, false⟩] [1] (1, 49) = [49] ∧
    rank_extent_from_tile_metadata [⟨.x, false⟩] [49] (1, 49) = [0] ∧
    (0 : Int) ≠ 1 := by
  refine ⟨?_, by decide, by decide⟩
  rw [tile_extent_eq_map]
  simp only [List.zip_cons_cons, List.zip_nil_left, List.map_cons, List.map_nil,
    tileExtent1_eq]
  decide

/-- C9 (amended): the face-extent computation multiplies each dimension's
size by its layout factor (rows for y-dimensions, columns for x-dimensions,
1 for non-horizontal dimensions) in exact int64 arithmetic, using
`(rankSize - 1) * factor + 1` for interface dimensions, and non-horizontal
dimensions pass through unchanged; the rank-extent computation applies the
same interface correction with the float64 factor `1/n`, and inverts the
face-extent computation on every dimension where its float64 rounding
recovers the original extent — which holds for all small layout factors
(first failing at 49) but not universally. -/
theorem claim_c9_extent_rules (dims : List Dim) (extents : List Int)
    (layout : Nat × Nat) (h0 : 0 < layout.1) (h1 : 0 < layout.2)
    (hlen : dims.length = extents.length) :
    (tile_extent_from_rank_metadata dims extents layout =
      (dims.zip extents).map (fun p =>
        if p.1.interface then (p.2 - 1) * (layout_factor_1 p.1 layout : Int) + 1
        else p.2 * (layout_factor_1 p.1 layout : Int))) ∧
    (∀ d e, d.axis = .nonHorizontal → layout_factor_1 d layout = 1 ∧
      tileExtent1 d e (layout_factor_1 d layout) = e) ∧
    ((∀ p ∈ dims.zip extents,
        rankExtent1 p.1 (tileExtent1 p.1 p.2 (layout_factor_1 p.1 layout))
          (layout_factor_1 p.1 layout) = p.2) →
      rank_extent_from_tile_metadata dims
        (tile_extent_from_rank_metadata dims extents layout) layout = extents) := by
  refine ⟨?_, ?_, ?_⟩
  · rw [tile_extent_eq_map]
    apply List.map_congr_left
    intro p _
    rw [tileExtent1_eq]
  · intro d e h
    have hf : layout_factor_1 d layout = 1 := by simp [layout_factor_1, h]
    refine ⟨hf, ?_⟩
    rw [hf, tileExtent1_eq]
    by_cases hi : d.interface <;> simp [hi]
  · intro hrec
    rw [tile_extent_eq_map, rank_extent_eq_map,
      zip_zip_map (fun d e => tileExtent1 d e (layout_factor_1 d layout))
        (fun d x => rankExtent1 d x (layout_factor_1 d layout))]
    have step : (dims.zip extents).map (fun p =>
        rankExtent1 p.1 (tileExtent1 p.1 p.2 (layout_factor_1 p.1 layout))
          (layout_factor_1 p.1 layout)) =
        (dims.zip extents).map (fun p => p.2) := by
      apply List.map_congr_left
      intro p hp
      exact hrec p hp
    rw [step]
    clear step hrec
    induction dims generalizing extents with
    | nil =>
      cases extents with
      | nil => simp
      | cons e te => simp at hlen
    | cons d t ih =>
      cases extents with
      | nil => simp at hlen
      | cons e te =>
        simp only [List.zip_cons_cons, List.map]
        exact congrArg _ (ih te (by simpa using hlen))

/-- Witness for C9 on the dimension list (y-interface, x-center,
non-horizontal interface) with rank extents `(4, 5, 17)` under layout
`(3, 2)`; the float64 recovery hypothesis is discharged by evaluating the
model (`10 -> 4` at factor 3, `10 -> 5` at factor 2, `17 -> 17` at factor
1). -/
theorem claim_c9_extent_rules_witness :
    (tile_extent_from_rank_metadata
        [⟨.y, true⟩, ⟨.x, false⟩, ⟨.nonHorizontal, true⟩] [4, 5, 17] (3, 2) =
      ([⟨.y, true⟩, ⟨.x, false⟩, ⟨.nonHorizontal, true⟩].zip
          [(4 : Int), 5, 17]).map (fun p =>
        if p.1.interface then (p.2 - 1) * (layout_factor_1 p.1 (3, 2) : Int) + 1
        else p.2 * (layout_factor_1 p.1 (3, 2) : Int))) ∧
    (∀ d e, d.axis = .nonHorizontal → layout_factor_1 d (3, 2) = 1 ∧
      tileExtent1 d e (layout_factor_1 d (3, 2)) = e) ∧
    (rank_extent_from_tile_metadata [⟨.y, true⟩, ⟨.x, false⟩, ⟨.nonHorizontal, true⟩]
      (tile_extent_from_rank_metadata
        [⟨.y, true⟩, ⟨.x, false⟩, ⟨.nonHorizontal, true⟩] [4, 5, 17] (3, 2)) (3, 2) =
      [4, 5, 17]) := by
  have h := claim_c9_extent_rules [⟨.y, true⟩, ⟨.x, false⟩, ⟨.nonHorizontal, true⟩]
    [4, 5, 17] (3, 2) (by decide) (by decide) (by decide)
  refine ⟨h.1, h.2.1, h.2.2 ?_⟩
  intro p hp
  have hy : tileExtent1 ⟨Axis.y, true⟩ (4 : Int) 3 = 10 := by
    rw [tileExtent1_eq]
    decide
  have hx : tileExtent1 ⟨Axis.x, false⟩ (5 : Int) 2 = 10 := by
    rw [tileExtent1_eq]
    decide
  have hz : tileExtent1 ⟨Axis.nonHorizontal, true⟩ (17 : Int) 1 = 17 := by
    rw [tileExtent1_eq]
    decide
  simp only [List.zip_cons_cons, List.zip_nil_left, List.mem_cons,
    List.not_mem_nil, or_false] at hp
  rcases hp with rfl | rfl | rfl
  · show rankExtent1 ⟨Axis.y, true⟩ (tileExtent1 ⟨Axis.y, true⟩ 4 3) 3 = 4
    rw [hy]
    decide
  · show rankExtent1 ⟨Axis.x, false⟩ (tileExtent1 ⟨Axis.x, false⟩ 5 2) 2 = 5
    rw [hx]
    decide
  · show rankExtent1 ⟨Axis.nonHorizontal, true⟩
      (tileExtent1 ⟨Axis.nonHorizontal, true⟩ 17 1) 1 = 17
    rw [hz]
    decide

/-- The subtile-index component `list_by_dims(dims, subtile_index, 0)`
assigns to one dimension. -/
def subtile_component (d : Dim) (subtile_idx : Int × Int) : Int :=
  match d.axis with
  | .y => subtile_idx.1
  | .x => subtile_idx.2
  | .nonHorizontal => 0

/-- The slice `subtile_slice` computes for one dimension: for a dimension
`d` of face extent `E` with `n` ranks along its axis and subtile component
`i`, `_index_generator` yields exactly `_IndexData1D(d, rank_extent, i, n)`
with `rank_extent` the per-dimension rank extent (see
`subtile_slice_eq_map`). -/
def subtile_slice_1d (d : Dim) (E : Int) (n : Nat) (i : Int) (overlap : Bool) :
    Int × Int :=
  slice_from_index_data overlap ⟨d, rankExtent1 d E n, i, (n : Int)⟩

theorem subtile_slice_eq_map (dims : List Dim) (ext : List Int)
    (layout : Nat × Nat) (sidx : Int × Int) (ov : Bool) :
    subtile_slice dims ext layout sidx ov =
      (dims.zip ext).map (fun p =>
        subtile_slice_1d p.1 p.2 (layout_factor_1 p.1 layout)
          (subtile_component p.1 sidx) ov) := by
  unfold subtile_slice index_generator
  rw [rank_extent_eq_map]
  induction dims generalizing ext with
  | nil => simp [list_by_dims]
  | cons dh dt ih =>
    cases ext with
    | nil => simp [list_by_dims]
    | cons eh et =>
      simp only [list_by_dims, List.map_cons, List.zip_cons_cons, List.map] at ih ⊢
      refine congrArg₂ _ ?_ (ih et)
      rfl

theorem subtile_slice_1d_spec (d : Dim) (e E : Int) (n : Nat)
    (hrec : rankExtent1 d E n = e) (i : Int) :
    subtile_slice_1d d E n i false =
      (i * (e - if d.interface then 1 else 0),
       i * (e - if d.interface then 1 else 0) +
         (if i = (n : Int) - 1 then e else e - if d.interface then 1 else 0)) := by
  unfold subtile_slice_1d slice_from_index_data
  rw [hrec]
  simp only [IndexData1D.base_extent, IndexData1D.extent_minus_gridcell_count,
    IndexData1D.is_end_index, beq_iff_eq, Bool.or_false]
  by_cases hi : i = (n : Int) - 1 <;> simp [hi]

/-- C3 counterexample: the partition property fails as stated because
`subtile_slice` sizes each slice from the float64-computed rank extent: for
one center x-dimension with rank extent 1 and 49 ranks on the axis, the
face extent is 49, but `rank_extent_from_tile_metadata` computes
`int(49 * float64(1/49)) = 0`, so every one of the 49 slices is the empty
range `slice(0, 0)` and no index of `[0, 49)` is covered by any rank. -/
theorem claim_c3_counterexample :
    tileExtent1 ⟨.x, false⟩ 1 49 = 49 ∧
    rankExtent1 ⟨.x, false⟩ 49 49 = 0 ∧
    ((List.range 49).all (fun i =>
      decide (subtile_slice_1d ⟨.x, false⟩ 49 49 (i : Int) false = (0, 0)))) = true := by
  refine ⟨?_, by decide, by decide⟩
  rw [tileExtent1_eq]
  decide

/-- C3 (amended): for a face extent `E = tileExtent1 d e n` arising from a
per-rank extent `e ≥ 1` along a dimension with `n` ranks on its axis, and
whose float64 rank-extent computation recovers `e` (true for all small
layout factors, first failing at `n = 49`), the non-overlapping subtile
slices over all subtile components `i ∈ [0, n)` tile `[0, E)` exactly:
every index lies in exactly one slice, and for an interface dimension the
final shared grid line `E - 1` lies in the slice of the highest-index rank
`i = n - 1` and no other. -/
theorem claim_c3_partition (d : Dim) (n : Nat) (e E : Int) (hn : 0 < n)
    (he : 1 ≤ e) (hE : E = tileExtent1 d e n)
    (hrec : rankExtent1 d E n = e) :
    (∀ k : Int, 0 ≤ k → k < E →
      ∃! i : Int, (0 ≤ i ∧ i < (n : Int)) ∧
        (subtile_slice_1d d E n i false).1 ≤ k ∧
        k < (subtile_slice_1d d E n i false).2) ∧
    (d.interface = true → ∀ i : Int, 0 ≤ i → i < (n : Int) →
      (((subtile_slice_1d d E n i false).1 ≤ E - 1 ∧
        E - 1 < (subtile_slice_1d d E n i false).2) ↔ i = (n : Int) - 1)) := by
  have hslice := subtile_slice_1d_spec d e E n hrec
  set a : Int := if d.interface then 1 else 0 with ha
  have ha01 : a = 0 ∨ a = 1 := by
    by_cases h : d.interface <;> simp [ha, h]
  set b : Int := e - a with hbdef
  have hbase : 0 ≤ b := by omega
  have hea : e = b + a := by omega
  have hEeq : E = (n : Int) * b + a := by
    rw [hE, tileExtent1_eq]
    by_cases h : d.interface
    · have ha1 : a = 1 := by rw [ha, if_pos h]
      rw [if_pos h, hbdef, ha1]
      ring
    · have ha0 : a = 0 := by rw [ha, if_neg h]
      rw [if_neg h, hbdef, ha0]
      ring
  have hnI : (1 : Int) ≤ (n : Int) := by exact_mod_cast hn
  have hstart : ∀ i : Int, (subtile_slice_1d d E n i false).1 = i * b := by
    intro i
    rw [hslice i]
  have hend_other : ∀ i : Int, i ≠ (n : Int) - 1 →
      (subtile_slice_1d d E n i false).2 = i * b + b := by
    intro i hi
    rw [hslice i]
    simp [hi]
  have hend_last : (subtile_slice_1d d E n ((n : Int) - 1) false).2 =
      ((n : Int) - 1) * b + e := by
    rw [hslice]
    simp
  have hmono : ∀ i1 i2 : Int, i1 ≤ i2 → i1 * b ≤ i2 * b := by
    intro i1 i2 h
    exact mul_le_mul_of_nonneg_right h hbase
  have no_both : ∀ j1 j2 : Int, j1 < j2 → j2 ≤ (n : Int) - 1 → ∀ k : Int,
      k < (subtile_slice_1d d E n j1 false).2 →
      (subtile_slice_1d d E n j2 false).1 ≤ k → False := by
    intro j1 j2 h12 h2n k hk1 hk2
    rw [hend_other j1 (by omega)] at hk1
    rw [hstart j2] at hk2
    have hm := hmono (j1 + 1) j2 (by omega)
    have hexp : (j1 + 1) * b = j1 * b + b := by ring
    linarith
  constructor
  · intro k hk0 hkE
    by_cases hb0 : b = 0
    · -- degenerate: every rank owns only the single shared interface point
      have hEa : E = a := by
        rw [hEeq, hb0]
        ring
      have ha1 : a = 1 := by omega
      have hk00 : k = 0 := by omega
      have hz : ∀ i : Int, i * b = 0 := by
        intro i
        rw [hb0]
        ring
      refine ⟨(n : Int) - 1, ⟨⟨by omega, by omega⟩, ?_, ?_⟩, ?_⟩
      · rw [hstart]
        have := hz ((n : Int) - 1)
        omega
      · rw [hend_last]
        have := hz ((n : Int) - 1)
        omega
      · intro j hj
        obtain ⟨⟨hj0, hjn⟩, hjs, hje⟩ := hj
        by_contra hne
        rw [hend_other j (by omega)] at hje
        have := hz j
        omega
    · have hbpos : 0 < b := lt_of_le_of_ne hbase (Ne.symm hb0)
      have hq0 : 0 ≤ k / b := Int.ediv_nonneg hk0 hbase
      have hqr : b * (k / b) + k % b = k := Int.ediv_add_emod k b
      have hr0 : 0 ≤ k % b := Int.emod_nonneg k hb0
      have hrlt : k % b < b := Int.emod_lt_of_pos k hbpos
      have hcomm : (k / b) * b = b * (k / b) := mul_comm _ _
      by_cases hq : k / b ≤ (n : Int) - 1
      · have hmem_start : (subtile_slice_1d d E n (k / b) false).1 ≤ k := by
          rw [hstart]
          linarith
        have hmem_end : k < (subtile_slice_1d d E n (k / b) false).2 := by
          by_cases hqe : k / b = (n : Int) - 1
          · rw [hqe, hend_last]
            have h2 : ((n : Int) - 1) * b = (k / b) * b := by rw [hqe]
            have h3 : b ≤ e := by omega
            linarith
          · rw [hend_other _ hqe]
            linarith
        refine ⟨k / b, ⟨⟨hq0, by omega⟩, hmem_start, hmem_end⟩, ?_⟩
        intro j hj
        obtain ⟨⟨hj0, hjn⟩, hjs, hje⟩ := hj
        by_contra hne
        rcases lt_or_gt_of_ne hne with hlt | hgt
        · exact no_both j (k / b) hlt (by omega) k hje hmem_start
        · exact no_both (k / b) j hgt (by omega) k hmem_end hjs
      · -- k / b ≥ n: only the extra interface point k = n*b remains
        push_neg at hq
        have hqn : (n : Int) ≤ k / b := by omega
        have h1 : (n : Int) * b ≤ (k / b) * b := hmono _ _ hqn
        have h2 : (n : Int) * b ≤ k := by linarith
        have ha1 : a = 1 := by
          rcases ha01 with h | h
          · exfalso
            linarith
          · exact h
        have hkn : k = (n : Int) * b := by linarith
        have hlastmul : ((n : Int) - 1) * b + b = (n : Int) * b := by ring
        have hmem_start : (subtile_slice_1d d E n ((n : Int) - 1) false).1 ≤ k := by
          rw [hstart]
          linarith
        have hmem_end : k < (subtile_slice_1d d E n ((n : Int) - 1) false).2 := by
          rw [hend_last]
          linarith
        refine ⟨(n : Int) - 1, ⟨⟨by omega, by omega⟩, hmem_start, hmem_end⟩, ?_⟩
        intro j hj
        obtain ⟨⟨hj0, hjn⟩, hjs, hje⟩ := hj
        by_contra hne
        exact no_both j ((n : Int) - 1) (by omega) (by omega) k hje hmem_start
  · intro hi i hi0 hin
    have ha1 : a = 1 := by rw [ha, if_pos hi]
    have hE1 : E - 1 = (n : Int) * b := by linarith
    have hlastmul : ((n : Int) - 1) * b + b = (n : Int) * b := by ring
    have hmono1 : ((n : Int) - 1) * b ≤ (n : Int) * b := hmono _ _ (by omega)
    have hstart_last : (subtile_slice_1d d E n ((n : Int) - 1) false).1 ≤ E - 1 := by
      rw [hstart]
      linarith
    constructor
    · rintro ⟨hs, hend⟩
      by_contra hne
      exact no_both i ((n : Int) - 1) (by omega) (by omega) (E - 1) hend hstart_last
    · intro hieq
      subst hieq
      refine ⟨hstart_last, ?_⟩
      rw [hend_last]
      linarith

/-- Witness for C3: the x-interface dimension with rank extent 4 and 3
ranks on the axis, giving face extent 10. -/
theorem claim_c3_partition_witness :
    (∀ k : Int, 0 ≤ k → k < 10 →
      ∃! i : Int, (0 ≤ i ∧ i < ((3 : Nat) : Int)) ∧
        (subtile_slice_1d ⟨.x, true⟩ 10 3 i false).1 ≤ k ∧
        k < (subtile_slice_1d ⟨.x, true⟩ 10 3 i false).2) ∧
    ((⟨.x, true⟩ : Dim).interface = true → ∀ i : Int, 0 ≤ i → i < ((3 : Nat) : Int) →
      (((subtile_slice_1d ⟨.x, true⟩ 10 3 i false).1 ≤ 10 - 1 ∧
        10 - 1 < (subtile_slice_1d ⟨.x, true⟩ 10 3 i false).2) ↔
        i = ((3 : Nat) : Int) - 1)) :=
  claim_c3_partition ⟨.x, true⟩ 3 4 10 (by decide) (by decide)
    (by rw [tileExtent1_eq]; decide) (by decide)

end Partitioner
